import Mathlib

/-!
# Verification of the crudio data-generation engine

Shallow embedding of the core of `src/src/CrudioEntityType.ts` (which contains
the classes `CrudioEntityType` and `CrudioDataModel`): row-count resolution and
table filling, relationship connection (one-to-many, many-to-many), the
generator/token engine with unique-value tracking and the per-row retry loop,
the trigger/script interpreter, and the assignment processor.

JavaScript strings are `String`, JS numbers used as indices are `ℤ`/`ℕ`,
`Math.random()` values are rationals `r` with `0 ≤ r < 1` passed explicitly,
JS objects used as maps are association lists, and code that can `throw`
returns `Except String`.
-/

namespace Crudio

/-- The character `[`. -/
def lBrack : Char := Char.ofNat 91

/-- The character `]`. -/
def rBrack : Char := Char.ofNat 93

/-- The character `;`. -/
def semiChar : Char := Char.ofNat 59

/-- `s.includes(c)` on a JS string (kernel-reducible form). -/
def strContains (s : String) (c : Char) : Bool :=
  s.data.any (fun x => decide (x = c))

/-- Split on a single-character separator, JS `String.prototype.split`
semantics (kernel-reducible form). -/
def jsSplitAux (c : Char) : List Char → List Char → List String
  | [], acc => [String.mk acc.reverse]
  | x :: xs, acc =>
      if x = c then String.mk acc.reverse :: jsSplitAux c xs []
      else jsSplitAux c xs (x :: acc)

/-- JS `s.split(c)` for a one-character separator. -/
def jsSplit (s : String) (c : Char) : List String :=
  jsSplitAux c s.data []

/-- Remove one occurrence of `c` at the head of a character list. -/
def dropOneLeading (c : Char) : List Char → List Char
  | x :: xs => if x = c then xs else x :: xs
  | [] => []

/-- JS `String.prototype.indexOf` for a single character: index of the first
occurrence, `-1` when absent. -/
def jsIndexOfChar (s : String) (c : Char) : ℤ :=
  match s.data.findIdx? (fun x => x = c) with
  | some i => (i : ℤ)
  | none => -1

/-- JS `String.prototype.substring(a, b)`: clamps both arguments into
`[0, length]` and swaps them when `a > b`. -/
def jsSubstring (s : String) (a b : ℤ) : String :=
  let n : ℤ := (s.length : ℤ)
  let ca := min (max a 0) n
  let cb := min (max b 0) n
  let lo := (min ca cb).toNat
  let hi := (max ca cb).toNat
  String.mk ((s.data.drop lo).take (hi - lo))

/-- Numeric value of a list of decimal digit characters. -/
def natOfDigits (ds : List Char) : ℕ :=
  ds.foldl (fun acc c => acc * 10 + (c.toNat - 48)) 0

/-- JS `parseInt(s)` restricted to base 10: skip leading whitespace, optional
sign, then a maximal digit run; `none` models `NaN`. -/
def jsParseInt (s : String) : Option ℤ :=
  let cs := s.data.dropWhile (fun c => c.isWhitespace)
  let signAndRest : ℤ × List Char :=
    match cs with
    | c :: rest =>
        if c = Char.ofNat 45 then (-1, rest)
        else if c = Char.ofNat 43 then (1, rest) else (1, cs)
    | [] => (1, [])
  let ds := signAndRest.2.takeWhile (fun c => c.isDigit)
  if ds.isEmpty then none
  else some (signAndRest.1 * (natOfDigits ds : ℤ))

/-!
## Generator value selection

`GetRandomNumber` (CrudioDataModel, lines 1522–1525) is
`Math.floor((max - min) * Math.random()) + min`; the `Math.random()` result is
the explicit parameter `r`.
-/

/-- `GetRandomNumber(min, max)` from the source: `floor((max-min)*r) + min`
where `r` stands for `Math.random()`. -/
def GetRandomNumber (minv maxv : ℤ) (r : ℚ) : ℤ :=
  ⌊((maxv : ℚ) - (minv : ℚ)) * r⌋ + minv

/-- JS `content.replace(/(^;)|(;$)/g, "")` from `GetRandomStringFromList`:
removes one leading and one trailing semicolon. -/
def stripSemis (s : String) : String :=
  let d1 := dropOneLeading semiChar s.data
  String.mk (dropOneLeading semiChar d1.reverse).reverse

/-- `GetRandomStringFromList` (lines 1453–1459): strip one leading/trailing
separator, split on `;`, pick index `floor(words.length * r)`. Out-of-range
access (impossible for `0 ≤ r < 1`) models JS `undefined` as `none`. -/
def GetRandomStringFromList (content : String) (r : ℚ) : Option String :=
  let words := jsSplit (stripSemis content) semiChar
  let index := (⌊(words.length : ℚ) * r⌋).toNat
  words[index]?

/-- A value produced by `GetGeneratedValue`: JS returns either a string or a
number from the range branch; `nan` models the `NaN` produced when a range
bound fails to parse. -/
inductive GenValue where
  | str (s : Option String)
  | num (n : ℤ)
  | nan
  deriving Repr, DecidableEq

/-- The non-builtin core of `GetGeneratedValue` (lines 1431–1443), applied to
the generator content already fetched by `GetGenerator`: a `;`-list picks a
random element, a `>` range picks a random integer via
`GetRandomNumber(parseInt(vals[0]), parseInt(vals[1]))`, anything else passes
through as a literal. -/
def GetGeneratedValueContent (content : String) (r : ℚ) : GenValue :=
  if strContains content semiChar then
    GenValue.str (GetRandomStringFromList content r)
  else if strContains content (Char.ofNat 62) then
    let vals := jsSplit content (Char.ofNat 62)
    match jsParseInt (vals.getD 0 ""), jsParseInt (vals.getD 1 "") with
    | some a, some b => GenValue.num (GetRandomNumber a b r)
    | _, _ => GenValue.nan
  else GenValue.str (some content)

/-!
## Entity fields, instances and table filling
-/

/-- The slice of a `CrudioField` that the generation engine reads: the field
name, the `isUnique` flag and the `generator` expression
(`fieldOptions.generator`, `undefined` modelled as `none`). -/
structure EntityField where
  fieldName : String
  isUnique : Bool := false
  generator : Option String := none
  deriving Repr, DecidableEq

/-- `entityInstance.DataValues`: a JS object mapping field names to values.
A value is `none` for JS `undefined` and `some s` for a string. -/
abbrev DataValues := List (String × Option String)

/-- `SetupEntityGenerators` (lines 1199–1204): each field of the new instance
is initialised to its unresolved generator expression. -/
def SetupEntityGenerators (fields : List EntityField) : DataValues :=
  fields.map (fun f => (f.fieldName, f.generator))

/-- `GetGenerator` (lines 1469–1475): look up a generator by name in the
`generators` object, throwing when the name is unknown. -/
def GetGenerator (gens : List (String × String)) (name : String) : Except String String :=
  match gens.lookup name with
  | some v => Except.ok v
  | none => Except.error ("Generator name is invalid \x27" ++ name ++ "\x27")

/-- JS `s.replace(/\[|\]/g, "")`: remove every square bracket. -/
def stripBrackets (s : String) : String :=
  String.mk (s.data.filter (fun c => ¬(c = lBrack ∨ c = rBrack)))

/-- `table.EntityDefinition.MaxRowCount`: a generator reference string, a
number, or `undefined`. -/
inductive RowCountSpec where
  | strCount (s : String)
  | numCount (n : ℕ)
  | undef
  deriving Repr, DecidableEq

/-- The error thrown by `FillTable` when the resolved count is zero. -/
def countError (tableName v : String) : String :=
  "Error: Unable to determine entity count for " ++ tableName ++ " using \x22" ++ v ++ "\x22 "

/-- The row-count computation of `FillTable` (lines 1117–1138): a string count
strips the brackets, fetches the generator and takes
`v.split(";").length - 1` (`jsSplit`); zero is an error; a numeric count is used as is;
`undefined` falls back to the default of 50. -/
def FillTableCount (gens : List (String × String)) (tableName : String) (mrc : RowCountSpec) :
    Except String ℕ :=
  match mrc with
  | RowCountSpec.strCount s =>
      match GetGenerator gens (stripBrackets s) with
      | Except.error e => Except.error e
      | Except.ok v =>
          let count := (jsSplit v semiChar).length - 1
          if count = 0 then Except.error (countError tableName v) else Except.ok count
  | RowCountSpec.numCount n => Except.ok n
  | RowCountSpec.undef => Except.ok 50

/-- `FillTable` (lines 1117–1138): create `count` instances, each initialised
by `SetupEntityGenerators` (`CreateEntityInstance`; trigger execution does not
add rows to the table being filled and is modelled separately). -/
def FillTable (gens : List (String × String)) (tableName : String) (fields : List EntityField)
    (mrc : RowCountSpec) : Except String (List DataValues) :=
  match FillTableCount gens tableName mrc with
  | Except.error e => Except.error e
  | Except.ok count => Except.ok (List.replicate count (SetupEntityGenerators fields))

/-- Modelled from the spec wording, for comparison with `FillTableCount`
(never from the source): the number of `;`-delimited literal values of a
generator value list, after stripping leading/trailing separators. -/
def specLiteralValueCount (v : String) : ℕ :=
  (jsSplit (stripSemis v) semiChar).length

/-!
## Theorems for claims C7 and C1
-/

/-- C7: for every numeric range generator with integer bounds `low < high`,
the produced value `floor((high-low)*rand())+low` is an integer in the
half-open interval `[low, high)`; moreover the generator content `1>255`
dispatches to exactly `GetRandomNumber 1 255`. -/
theorem range_generator_bounds (low high : ℤ) (r : ℚ)
    (hlt : low < high) (h0 : 0 ≤ r) (h1 : r < 1) :
    (low ≤ GetRandomNumber low high r ∧ GetRandomNumber low high r < high) ∧
    GetGeneratedValueContent "1>255" r = GenValue.num (GetRandomNumber 1 255 r) := by
  have hpos : (0 : ℚ) < (high : ℚ) - (low : ℚ) := by
    have : (low : ℚ) < (high : ℚ) := by exact_mod_cast hlt
    linarith
  refine ⟨⟨?_, ?_⟩, ?_⟩
  · have hnn : (0 : ℚ) ≤ ((high : ℚ) - (low : ℚ)) * r := mul_nonneg hpos.le h0
    have := Int.floor_nonneg.mpr hnn
    unfold GetRandomNumber
    omega
  · have hlt2 : ((high : ℚ) - (low : ℚ)) * r < (high : ℚ) - (low : ℚ) := by
      calc ((high : ℚ) - (low : ℚ)) * r < ((high : ℚ) - (low : ℚ)) * 1 := by
            exact mul_lt_mul_of_pos_left h1 hpos
        _ = (high : ℚ) - (low : ℚ) := mul_one _
    have hfl : ⌊((high : ℚ) - (low : ℚ)) * r⌋ < high - low := by
      rw [Int.floor_lt]
      push_cast
      linarith
    unfold GetRandomNumber
    omega
  · rfl

/-- Witness for `range_generator_bounds` at `low = 1`, `high = 255`,
`r = 1/2`. -/
theorem range_generator_bounds_witness :
    (1 ≤ GetRandomNumber 1 255 (1 / 2) ∧ GetRandomNumber 1 255 (1 / 2) < 255) ∧
    GetGeneratedValueContent "1>255" (1 / 2) = GenValue.num (GetRandomNumber 1 255 (1 / 2)) :=
  range_generator_bounds 1 255 (1 / 2) (by norm_num) (by norm_num) (by norm_num)

/-- C1 counterexample: `FillTable` does not strip leading/trailing separators
before counting; for the generator value `cars;pets;food` it creates 2 rows
(`split(";").length - 1`), while the number of literal values after stripping
separators is 3. -/
theorem fillTable_count_counterexample :
    FillTableCount [("tag", "cars;pets;food")] "Tags" (RowCountSpec.strCount "[tag]") =
      Except.ok 2 ∧
    specLiteralValueCount "cars;pets;food" = 3 ∧
    FillTable [("tag", "cars;pets;food")] "Tags"
        [{ fieldName := "name", isUnique := true, generator := some "[tag]" }]
        (RowCountSpec.strCount "[tag]") =
      Except.ok (List.replicate 2 [("name", some "[tag]")]) := by
  exact ⟨rfl, rfl, rfl⟩

/-- C1 amended: for a generator-reference row count, `FillTable` creates
exactly `v.split(";").length - 1` instances where `v` is the generator value
(no separator stripping); a computed count of zero throws the count error. -/
theorem fillTable_creates_split_minus_one_rows (gens : List (String × String))
    (tableName : String) (fields : List EntityField) (s v : String)
    (hg : GetGenerator gens (stripBrackets s) = Except.ok v) :
    ((jsSplit v semiChar).length - 1 = 0 →
      FillTable gens tableName fields (RowCountSpec.strCount s) =
        Except.error (countError tableName v)) ∧
    (∀ c, (jsSplit v semiChar).length - 1 = c → c ≠ 0 →
      FillTable gens tableName fields (RowCountSpec.strCount s) =
        Except.ok (List.replicate c (SetupEntityGenerators fields))) := by
  constructor
  · intro h0
    simp only [FillTable, FillTableCount, hg, h0]
    rfl
  · intro c hc hne
    simp only [FillTable, FillTableCount, hg, hc]
    simp [hne]

/-- Witness for `fillTable_creates_split_minus_one_rows`: a trailing-separator
list `cars;pets;food;` yields 3 rows, and a single literal with no separator
yields the zero-count error. -/
theorem fillTable_creates_split_minus_one_rows_witness :
    FillTable [("tag", "cars;pets;food;")] "Tags" [] (RowCountSpec.strCount "[tag]") =
      Except.ok (List.replicate 3 (SetupEntityGenerators [])) ∧
    FillTable [("one", "solo")] "Ones" [] (RowCountSpec.strCount "[one]") =
      Except.error (countError "Ones" "solo") :=
  ⟨(fillTable_creates_split_minus_one_rows [("tag", "cars;pets;food;")] "Tags" []
      "[tag]" "cars;pets;food;" rfl).2 3 (by decide) (by decide),
   (fillTable_creates_split_minus_one_rows [("one", "solo")] "Ones" []
      "[one]" "solo" rfl).1 (by decide)⟩

/-!
## Relationship connection

`JoinOneToMany` (lines 726–749) walks the source rows keeping a mutable
`index`; while `index` is still a valid target position the source row is
connected to target `index` (and `index` is incremented), afterwards to
`GetRandomNumber(0, targetCount)`. The connection of source row `i` is
represented by the `i`-th entry of the returned list (`some t` = connected to
target row `t`, `none` = no connection, which happens only when the guard
`row_num < targetCount` fails).
-/

/-- The loop body of `JoinOneToMany`: `k` source rows remain, `i` is the
position of the next source row (feeding the `Math.random()` stream `rnd`),
`index` is the sequential cursor. -/
def JoinOneToManyAux (targetCount : ℕ) (rnd : ℕ → ℚ) : ℕ → ℕ → ℕ → List (Option ℕ)
  | 0, _i, _index => []
  | k + 1, i, index =>
      if (index : ℤ) > (targetCount : ℤ) - 1 then
        let row_num := (GetRandomNumber 0 (targetCount : ℤ) (rnd i)).toNat
        (if row_num < targetCount then some row_num else none) ::
          JoinOneToManyAux targetCount rnd k (i + 1) index
      else
        (if index < targetCount then some index else none) ::
          JoinOneToManyAux targetCount rnd k (i + 1) (index + 1)

/-- `JoinOneToMany` (lines 726–749) on a source table of `sourceCount` rows
and target table of `targetCount` rows. -/
def JoinOneToMany (sourceCount targetCount : ℕ) (rnd : ℕ → ℚ) : List (Option ℕ) :=
  JoinOneToManyAux targetCount rnd sourceCount 0 0

/-- While the sequential cursor has not exhausted the target table, source row
`index + j` is connected to target row `index + j`. -/
theorem joinOneToManyAux_seq (targetCount : ℕ) (rnd : ℕ → ℚ) :
    ∀ (k i index j : ℕ), j < k → index + j < targetCount →
      (JoinOneToManyAux targetCount rnd k i index)[j]? = some (some (index + j)) := by
  intro k
  induction k with
  | zero => intro i index j hj _; omega
  | succ k ih =>
      intro i index j hj hlt
      have hseq : ¬((index : ℤ) > (targetCount : ℤ) - 1) := by omega
      rw [JoinOneToManyAux, if_neg hseq]
      cases j with
      | zero =>
          have hidx : index < targetCount := by omega
          simp only [List.getElem?_cons_zero, if_pos hidx, Nat.add_zero]
      | succ j =>
          have h1 : j < k := by omega
          have h2 : (index + 1) + j < targetCount := by omega
          have heq : index + (j + 1) = (index + 1) + j := by omega
          rw [List.getElem?_cons_succ, heq]
          exact ih (i + 1) (index + 1) j h1 h2

/-- C5: for every `one` relationship without a singular/default descriptor,
after `JoinOneToMany` runs, every target row is referenced by at least one
source row whenever the source table has at least as many rows as the target
table (source row `j` is connected to target row `j` in the sequential
phase). -/
theorem joinOneToMany_covers_all_targets (sourceCount targetCount : ℕ) (rnd : ℕ → ℚ)
    (hcov : targetCount ≤ sourceCount) :
    ∀ j < targetCount, ∃ i, i < sourceCount ∧
      (JoinOneToMany sourceCount targetCount rnd)[i]? = some (some j) := by
  intro j hj
  refine ⟨j, lt_of_lt_of_le hj hcov, ?_⟩
  have := joinOneToManyAux_seq targetCount rnd sourceCount 0 0 j
    (lt_of_lt_of_le hj hcov) (by omega)
  simpa using this

/-- Witness for `joinOneToMany_covers_all_targets` with 3 source rows, 2
target rows and a constant random stream: target row 1 is referenced. -/
theorem joinOneToMany_covers_all_targets_witness :
    ∃ i, i < 3 ∧ (JoinOneToMany 3 2 (fun _ => 0))[i]? = some (some 1) :=
  joinOneToMany_covers_all_targets 3 2 (fun _ => 0) (by norm_num) 1 (by norm_num)

/-- The inner loop of `JoinManyToMany` (lines 769–798) for one source id:
`options` is the spread copy `[...target_ids]`, `c` is
`Math.min(options.length, NumberOfSeededRelations)`, and each of the `c` join
rows picks `options[GetRandomNumber(0, options.length)]`. The source statement
`options.slice(row_num, 1)` is reproduced as the discarded pure value
`_slice_result`: JS `Array.prototype.slice` does not mutate `options`, so the
pool is never reduced. The returned list holds the target id chosen for each
join row. -/
def JoinManyToManyTargets (target_ids : List ℕ) (seededCount : ℕ) (rnd : ℕ → ℚ) :
    List (Option ℕ) :=
  let options := target_ids
  let c := min options.length seededCount
  (List.range c).map (fun i =>
    let row_num := (GetRandomNumber 0 (options.length : ℤ) (rnd i)).toNat
    let _slice_result := (options.take 1).drop row_num
    options[row_num]?)

/-- C2 (code bug): with target ids `[10, 20]` and configured join count 2, the
random stream that always returns 0 makes both join rows for the same source
id pick target 10 — selection is with replacement because `slice` never
removes the chosen option, contradicting the documented
without-replacement/no-duplicate behaviour (which `splice` would give). -/
theorem joinManyToMany_duplicate_target :
    JoinManyToManyTargets [10, 20] 2 (fun _ => 0) = [some 10, some 10] ∧
    (JoinManyToManyTargets [10, 20] 2 (fun _ => 0)).count (some 10) = 2 := by
  have hz : GetRandomNumber 0 ((([10, 20] : List ℕ).length : ℕ) : ℤ) 0 = 0 := by
    simp [GetRandomNumber]
  have hmap : JoinManyToManyTargets [10, 20] 2 (fun _ => 0) = [some 10, some 10] := by
    simp only [JoinManyToManyTargets, hz]
    rfl
  exact ⟨hmap, by rw [hmap]; rfl⟩

/-!
## Trigger scripts (C3)

`ExecuteTrigger` (lines 1571–1616) parses `Field(start-end).Type?query` and
then runs `for (ri = row_start; ri <= row_end; ri++)` — but the body passes
the variable `row_index`, which was set to `row_start` once and never
updated, to `ConnectChildWithRelatedEntity`, so every iteration uses the same
index.

The state tracks the parent's list-valued field (`parent.DataValues[field]`,
which is the same array that `ConnectRows(new, parent)` pushes into, since the
field is named after the child table), the target's back-reference list
(`target.DataValues[childTable]`), and a fresh-id counter for created child
instances.
-/

/-- State of one parent/target pair during trigger execution. -/
structure TriggerState where
  children : List ℕ
  targetRefs : List ℕ
  nextId : ℕ
  deriving Repr, DecidableEq

/-- The `while (parent_array.length < row_index + 1)` loop of
`ConnectChildWithRelatedEntity` (lines 1671–1684), with fuel = number of
missing entries: each created child is appended to the parent's list
(`ConnectRows(new_entity, parent_entity)`) and to the target's list
(`ConnectRows(new_entity, target_connection)`). -/
def createChildren : TriggerState → ℕ → TriggerState
  | st, 0 => st
  | st, n + 1 =>
      createChildren
        { children := st.children ++ [st.nextId],
          targetRefs := st.targetRefs ++ [st.nextId],
          nextId := st.nextId + 1 } n

/-- `ConnectChildWithRelatedEntity` (lines 1661–1692): create children until
the parent's list covers `row_index`, otherwise connect the existing child at
`row_index` to the target. -/
def ConnectChildWithRelatedEntity (row_index : ℕ) (st : TriggerState) : TriggerState :=
  if st.children.length < row_index + 1 then
    createChildren st (row_index + 1 - st.children.length)
  else
    { st with targetRefs := st.targetRefs ++ [st.children.getD row_index 0] }

/-- The index loop of `ExecuteTrigger` (lines 1613–1615):
`for (ri = row_start; ri <= row_end; ri++)` executes
`ConnectChildWithRelatedEntity(parent, field, row_index, target)` where
`row_index` is the constant `row_start` (the loop variable `ri` is unused in
the body). -/
def ExecuteTriggerRange (row_start row_end : ℕ) (st : TriggerState) : TriggerState :=
  (List.range (row_end + 1 - row_start)).foldl
    (fun s _ri => ConnectChildWithRelatedEntity row_start s) st

/-- C3 (code bug): executing the range script `Users(6-10).…` on a parent with
an empty child list creates children at indices 0–6 only (all connected to the
target during creation) and then re-connects the index-6 child four more
times; indices 7–10 are never created or connected, contradicting "the
connection is performed for every index in [start, end]". -/
theorem trigger_range_constant_index :
    ExecuteTriggerRange 6 10 ⟨[], [], 0⟩ =
      ⟨[0, 1, 2, 3, 4, 5, 6], [0, 1, 2, 3, 4, 5, 6, 6, 6, 6, 6], 7⟩ ∧
    (ExecuteTriggerRange 6 10 ⟨[], [], 0⟩).children.length = 7 := by
  exact ⟨rfl, rfl⟩

/-!
## Token processing and unique-value tracking (C4, C6, C10)

`ProcessTokensInEntity` (lines 1267–1308) resolves each tokenised field of a
scratch copy of the instance; `ReplaceTokens` (whose output depends on the
generator table, `Math.random()` and the current scratch values) is the
oracle parameter `resolve : ResolveFn`. The entity type's mutable
`unique_keys_values` object is the threaded `UsedValues` state.
-/

/-- JS `s.toLowerCase()`. -/
def jsToLower (s : String) : String :=
  String.mk (s.data.map Char.toLower)

/-- JS `s.trim()`. -/
def jsTrim (s : String) : String :=
  String.mk (((s.data.dropWhile (fun c => c.isWhitespace)).reverse.dropWhile
    (fun c => c.isWhitespace)).reverse)

/-- `detokenised_value.toLowerCase().trim()`, the normal form stored in the
unique-value sets. -/
def normalizeUV (s : String) : String :=
  jsTrim (jsToLower s)

/-- JS property read `obj[k]` on a `DataValues` object (`undefined` when the
key is absent). -/
def lookupVal : DataValues → String → Option String
  | [], _ => none
  | (k1, v) :: rest, k => if k1 = k then v else lookupVal rest k

/-- JS property write `obj[k] = v` on a `DataValues` object. -/
def setVal : DataValues → String → String → DataValues
  | [], k, v => [(k, some v)]
  | (k1, w) :: rest, k, v =>
      if k1 = k then (k1, some v) :: rest else (k1, w) :: setVal rest k v

/-- The `unique_keys_values` object of an entity type: one list of already
used (normalised) values per unique field. -/
abbrev UsedValues := List (String × List String)

/-- `unique_keys_values[k]` (the empty list when the field was never
initialised, which for unique fields never happens after
`InitialiseUniqueKeyValues`). -/
def usedList : UsedValues → String → List String
  | [], _ => []
  | (k1, l) :: rest, k => if k1 = k then l else usedList rest k

/-- `HasUniqueValue` (lines 56–58): `unique_keys_values[k].indexOf(v) >= 0`,
i.e. membership of `v` in the used-value list of field `k`. -/
def HasUniqueValue (used : UsedValues) (k v : String) : Bool :=
  decide (v ∈ usedList used k)

/-- `AddUniqueValue` (lines 60–62): `unique_keys_values[k].push(v)` (creating
the entry when the field has no list yet). -/
def AddUniqueValue : UsedValues → String → String → UsedValues
  | [], k, v => [(k, [v])]
  | (k1, l) :: rest, k, v =>
      if k1 = k then (k1, l ++ [v]) :: rest else (k1, l) :: AddUniqueValue rest k v

/-- `GetField` (lines 74–86) restricted to the data the token engine reads:
`undefined` when no field matches, the field when exactly one does, and the
multiple-match error otherwise. -/
def GetFieldMeta (fields : List EntityField) (typeName k : String) :
    Except String (Option EntityField) :=
  match fields.filter (fun f => decide (f.fieldName = k)) with
  | [] => Except.ok none
  | [f] => Except.ok (some f)
  | _ => Except.error ("\x27" ++ k ++ "\x27 matches multiple fields on entity \x27" ++
      typeName ++ "\x27")

/-- The error of the `detokenised_value.indexOf("[") >= 0` check
(line 1288). -/
def detokeniseError (typeName fieldName : String) : String :=
  "Error: Detokenisation failed in Entity:" ++ typeName ++ " - " ++ fieldName

/-- The oracle standing for `ReplaceTokens(field_value, new_instance)`: it
receives the unresolved expression and the scratch instance's current values
(used by `[!name]` context lookups) and returns the detokenised string. -/
abbrev ResolveFn := String → DataValues → String

/-- The field loop of `ProcessTokensInEntity` (lines 1279–1303): `keys` are
the remaining keys of `Object.keys(entityInstance.DataValues)`, `orig` the
input instance's values (returned unchanged when a unique collision rejects
the row), `newVals` the scratch copy being resolved, `used` the entity type's
unique-value state. The result is `(ok, DataValues, UsedValues)` where `ok`
is the boolean return of the source function. -/
def ProcessTokensInEntityAux (resolve : ResolveFn) (fields : List EntityField)
    (typeName : String) :
    List String → DataValues → DataValues → UsedValues →
      Except String (Bool × DataValues × UsedValues)
  | [], _orig, newVals, used => Except.ok (true, newVals, used)
  | k :: rest, orig, newVals, used =>
      match lookupVal newVals k with
      | some v =>
          if strContains v lBrack then
            let d := resolve v newVals
            let newVals2 := setVal newVals k d
            if strContains d lBrack then
              Except.error (detokeniseError typeName k)
            else
              match GetFieldMeta fields typeName k with
              | Except.error e => Except.error e
              | Except.ok (some f) =>
                  if f.isUnique then
                    if HasUniqueValue used k (normalizeUV d) then
                      Except.ok (false, orig, used)
                    else
                      ProcessTokensInEntityAux resolve fields typeName rest orig newVals2
                        (AddUniqueValue used k (normalizeUV d))
                  else
                    ProcessTokensInEntityAux resolve fields typeName rest orig newVals2 used
              | Except.ok none =>
                  ProcessTokensInEntityAux resolve fields typeName rest orig newVals2 used
          else
            ProcessTokensInEntityAux resolve fields typeName rest orig newVals used
      | none =>
          ProcessTokensInEntityAux resolve fields typeName rest orig newVals used

/-- `ProcessTokensInEntity` (lines 1267–1308): resolve all tokenised fields on
a scratch copy (`new_instance.DataValues = { ...entityInstance.DataValues }`);
the input instance's values are overwritten only on full success (the `true`
outcome carries the scratch values, the `false` outcome carries the untouched
input values). -/
def ProcessTokensInEntity (resolve : ResolveFn) (fields : List EntityField)
    (typeName : String) (vals : DataValues) (used : UsedValues) :
    Except String (Bool × DataValues × UsedValues) :=
  ProcessTokensInEntityAux resolve fields typeName (vals.map Prod.fst) vals vals used

/-- The error of `ProcessAllTokensInTable` when the retry budget is
exhausted (lines 1249–1251). -/
def uniqueError (tableName : String) (nrows : ℕ) : String :=
  "Error: Failed to create unique value for " ++ tableName ++ " with " ++ toString nrows ++
    " rows. Table contains " ++ toString nrows ++
    " entities. Try to define a generator that will create more random values. Adding a random number component can help."

/-- The `while (!ok && maxtries-- > 0)` loop of `ProcessAllTokensInTable`
(lines 1243–1256) for one row, with the remaining `maxtries` as fuel: the
loop condition post-decrements `maxtries`, the body throws when the
decremented `maxtries` is `0` and otherwise attempts
`ProcessTokensInEntity`. `resolve seed` is the resolver oracle of the
`seed`-th attempt overall (each attempt consumes fresh randomness); a failed
attempt keeps the row values and the (possibly grown) used-value state. The
fuel-`0` case is the unreachable `ok = false` loop exit. -/
def RetryLoop (resolve : ℕ → ResolveFn) (fields : List EntityField)
    (typeName tableName : String) (nrows : ℕ) (vals : DataValues) :
    UsedValues → ℕ → ℕ → Except String (DataValues × UsedValues × ℕ)
  | used, seed, 0 => Except.ok (vals, used, seed)
  | used, seed, m + 1 =>
      if m = 0 then Except.error (uniqueError tableName nrows)
      else
        match ProcessTokensInEntity (resolve seed) fields typeName vals used with
        | Except.error e => Except.error e
        | Except.ok (true, v2, u2) => Except.ok (v2, u2, seed + 1)
        | Except.ok (false, _v2, u2) =>
            RetryLoop resolve fields typeName tableName nrows vals u2 (seed + 1) m

/-- `ProcessAllTokensInTable` (lines 1242–1257): run the 1000-try retry loop
over every row of the table in order, threading the unique-value state and
the randomness counter. -/
def ProcessAllTokensInTable (resolve : ℕ → ResolveFn) (fields : List EntityField)
    (typeName tableName : String) (nrows : ℕ) :
    List DataValues → UsedValues → ℕ →
      Except String (List DataValues × UsedValues × ℕ)
  | [], used, seed => Except.ok ([], used, seed)
  | row :: rest, used, seed =>
      match RetryLoop resolve fields typeName tableName nrows row used seed 1000 with
      | Except.error e => Except.error e
      | Except.ok (v, u, s) =>
          match ProcessAllTokensInTable resolve fields typeName tableName nrows rest u s with
          | Except.error e => Except.error e
          | Except.ok (vs, u2, s2) => Except.ok (v :: vs, u2, s2)

/-- Every `false` outcome of the field loop returns the original values
untouched: all writes go to the scratch copy. -/
theorem processTokensAux_false_frame (resolve : ResolveFn) (fields : List EntityField)
    (tn : String) :
    ∀ (keys : List String) (orig newVals : DataValues) (used : UsedValues)
      (v : DataValues) (u : UsedValues),
      ProcessTokensInEntityAux resolve fields tn keys orig newVals used =
        Except.ok (false, v, u) →
      v = orig := by
  intro keys
  induction keys with
  | nil =>
      intro orig newVals used v u h
      simp only [ProcessTokensInEntityAux] at h
      simp at h
  | cons k rest ih =>
      intro orig newVals used v u h
      simp only [ProcessTokensInEntityAux] at h
      repeat' split at h
      all_goals first
        | exact ih _ _ _ _ _ h
        | simp_all

/-- C10: whenever `ProcessTokensInEntity` returns `false` because a resolved
unique-field value already belongs to the entity type's used-value set, the
input instance's `DataValues` mapping is left unchanged — resolution happened
on a scratch copy that is assigned back only on the `true` outcome. -/
theorem processTokens_reject_leaves_values_unchanged (resolve : ResolveFn)
    (fields : List EntityField) (tn : String) (vals : DataValues) (used : UsedValues)
    (v : DataValues) (u : UsedValues)
    (h : ProcessTokensInEntity resolve fields tn vals used = Except.ok (false, v, u)) :
    v = vals :=
  processTokensAux_false_frame resolve fields tn (vals.map Prod.fst) vals vals used v u h

/-- A unique `name` field whose generator is the token `[g]`, used by
concrete scenarios below. -/
def uniqueNameField : EntityField :=
  ⟨"name", true, some "[g]"⟩

/-- Witness for `processTokens_reject_leaves_values_unchanged`: a one-field
row whose resolved unique value "X" collides (case-insensitively) with the
already used "x"; the rejected row still holds its unresolved value. -/
theorem processTokens_reject_leaves_values_unchanged_witness :
    ProcessTokensInEntity (fun _ _ => "X") [uniqueNameField] "Tag"
        [("name", some "[g]")] [("name", ["x"])] =
      Except.ok (false, [("name", some "[g]")], [("name", ["x"])]) ∧
    ([("name", some "[g]")] : DataValues) = [("name", some "[g]")] :=
  ⟨rfl, processTokens_reject_leaves_values_unchanged (fun _ _ => "X")
    [uniqueNameField] "Tag"
    [("name", some "[g]")] [("name", ["x"])] [("name", some "[g]")] [("name", ["x"])] rfl⟩

/-!
## The retry budget (C6)
-/

/-- A successful `RetryLoop` run with fuel `m + 1` returns a randomness
counter at most `seed + m`: the accepted attempt used a seed `< seed + m`,
i.e. at most `m` attempts were made. -/
theorem retryLoop_ok_seed_bound (resolve : ℕ → ResolveFn) (fields : List EntityField)
    (tn tb : String) (n : ℕ) (vals : DataValues) :
    ∀ (m : ℕ) (used : UsedValues) (seed : ℕ) (v : DataValues) (u : UsedValues) (s2 : ℕ),
      RetryLoop resolve fields tn tb n vals used seed (m + 1) = Except.ok (v, u, s2) →
      s2 ≤ seed + m := by
  intro m
  induction m with
  | zero =>
      intro used seed v u s2 h
      simp [RetryLoop] at h
  | succ m ih =>
      intro used seed v u s2 h
      rw [RetryLoop, if_neg (Nat.succ_ne_zero m)] at h
      rcases hp : ProcessTokensInEntity (resolve seed) fields tn vals used with _ | ⟨b, v2, u2⟩
      · rw [hp] at h; cases h
      · rw [hp] at h
        cases b
        · exact le_trans (ih u2 (seed + 1) v u s2 h) (by omega)
        · simp at h
          omega

/-- If every attempt on this row fails with the used-value state unchanged,
`RetryLoop` raises the unique-value error once the fuel runs out (with any
positive fuel). -/
theorem retryLoop_all_fail (resolve : ℕ → ResolveFn) (fields : List EntityField)
    (tn tb : String) (n : ℕ) (vals : DataValues) (used : UsedValues)
    (hfail : ∀ s, ProcessTokensInEntity (resolve s) fields tn vals used =
      Except.ok (false, vals, used)) :
    ∀ (m : ℕ) (seed : ℕ), 1 ≤ m →
      RetryLoop resolve fields tn tb n vals used seed m = Except.error (uniqueError tb n) := by
  intro m
  induction m with
  | zero => intro seed h; omega
  | succ m ih =>
      intro seed _
      cases Nat.eq_zero_or_pos m with
      | inl h0 =>
          subst h0
          simp [RetryLoop]
      | inr hpos =>
          rw [RetryLoop, if_neg (by omega : ¬ m = 0), hfail seed]
          exact ih (seed + 1) hpos

/-- C6 amended: the row retry loop makes at most 999 attempts — a successful
run starting at randomness counter `seed` ends with a counter at most
`seed + 999` — and when the budget is exhausted (every attempt keeps failing)
it throws the fatal `uniqueError` naming the table; a failing attempt leaves
the row's values unchanged (the loop retries the untouched `vals`). -/
theorem retry_budget_is_999_attempts (resolve : ℕ → ResolveFn) (fields : List EntityField)
    (tn tb : String) (n : ℕ) (vals : DataValues) (used : UsedValues) (seed : ℕ) :
    (∀ v u s2, RetryLoop resolve fields tn tb n vals used seed 1000 = Except.ok (v, u, s2) →
      s2 ≤ seed + 999) ∧
    ((∀ s, ProcessTokensInEntity (resolve s) fields tn vals used =
        Except.ok (false, vals, used)) →
      RetryLoop resolve fields tn tb n vals used seed 1000 = Except.error (uniqueError tb n)) :=
  ⟨fun v u s2 h => retryLoop_ok_seed_bound resolve fields tn tb n vals 999 used seed v u s2 h,
   fun hfail => retryLoop_all_fail resolve fields tn tb n vals used hfail 1000 seed (by omega)⟩

/-- A resolver that keeps producing the colliding value "X" for the first 999
attempts (seeds 0–998) and the fresh value "fresh" from the 1000th attempt
(seed 999) on. -/
def resolveFreshAt1000 (seed : ℕ) : ResolveFn :=
  fun _ _ => if 999 ≤ seed then "fresh" else "X"

/-- Witness for `retry_budget_is_999_attempts`: a resolver that always
collides exhausts the budget and produces the table-naming error; a resolver
succeeding immediately ends with counter `1 ≤ 0 + 999`. -/
theorem retry_budget_is_999_attempts_witness :
    RetryLoop (fun _ => fun _ _ => "X") [uniqueNameField] "Tag" "Tags" 1
        [("name", some "[g]")] [("name", ["x"])] 0 1000 =
      Except.error (uniqueError "Tags" 1) ∧
    (1 : ℕ) ≤ 0 + 999 :=
  ⟨(retry_budget_is_999_attempts (fun _ => fun _ _ => "X") [uniqueNameField] "Tag" "Tags" 1
      [("name", some "[g]")] [("name", ["x"])] 0).2 (fun _ => rfl),
   (retry_budget_is_999_attempts (fun _ => fun _ _ => "Y") [uniqueNameField] "Tag" "Tags" 1
      [("name", some "[g]")] [("name", ["x"])] 0).1 [("name", some "Y")]
      [("name", ["x", "y"])] 1 rfl⟩

/-- C6 counterexample: with a resolver whose 1000th attempt (seed 999) would
succeed, the loop still throws — `ProcessTokensInEntity` is attempted at most
999 times because the loop body throws when the post-decremented `maxtries`
reaches 0, so "up to 1000 attempts" is not what the code does. -/
theorem retry_throws_before_thousandth_attempt :
    RetryLoop resolveFreshAt1000 [uniqueNameField] "Tag" "Tags" 1 [("name", some "[g]")]
        [("name", ["x"])] 0 1000 = Except.error (uniqueError "Tags" 1) ∧
    ProcessTokensInEntity (resolveFreshAt1000 999) [uniqueNameField] "Tag"
        [("name", some "[g]")] [("name", ["x"])] =
      Except.ok (true, [("name", some "fresh")], [("name", ["x", "fresh"])]) := by
  constructor
  · have key : ∀ (m seed : ℕ), seed + m = 1000 → 1 ≤ m →
        RetryLoop resolveFreshAt1000 [uniqueNameField] "Tag" "Tags" 1 [("name", some "[g]")]
          [("name", ["x"])] seed m = Except.error (uniqueError "Tags" 1) := by
      intro m
      induction m with
      | zero => intro seed _ h; omega
      | succ m ih =>
          intro seed hsum _
          cases Nat.eq_zero_or_pos m with
          | inl h0 =>
              subst h0
              simp [RetryLoop]
          | inr hpos =>
              have hseed : ¬ 999 ≤ seed := by omega
              have hres : resolveFreshAt1000 seed = fun _ _ => "X" := by
                funext a b
                simp [resolveFreshAt1000, hseed]
              have hstep : ProcessTokensInEntity (resolveFreshAt1000 seed) [uniqueNameField]
                  "Tag" [("name", some "[g]")] [("name", ["x"])] =
                  Except.ok (false, [("name", some "[g]")], [("name", ["x"])]) := by
                rw [hres]
                rfl
              rw [RetryLoop, if_neg (by omega : ¬ m = 0), hstep]
              exact ih (seed + 1) (by omega) hpos
    exact key 1000 0 rfl (by omega)
  · rfl

/-!
## Table-wide uniqueness (C4)
-/

/-- Appending a value to a field's used list extends exactly that list. -/
theorem usedList_add_self (used : UsedValues) (k v : String) :
    usedList (AddUniqueValue used k v) k = usedList used k ++ [v] := by
  induction used with
  | nil => simp [AddUniqueValue, usedList]
  | cons p rest ih =>
      obtain ⟨k1, l⟩ := p
      by_cases h : k1 = k
      · subst h
        simp [AddUniqueValue, usedList]
      · simp [AddUniqueValue, usedList, h, ih]

/-- Appending a value to a field's used list leaves other fields alone. -/
theorem usedList_add_ne (used : UsedValues) (k v k2 : String) (h : k2 ≠ k) :
    usedList (AddUniqueValue used k v) k2 = usedList used k2 := by
  have h2 : ¬ (k = k2) := fun e => h e.symm
  induction used with
  | nil => simp [AddUniqueValue, usedList, h2]
  | cons p rest ih =>
      obtain ⟨k1, l⟩ := p
      by_cases hk : k1 = k
      · subst hk
        simp [AddUniqueValue, usedList, h2]
      · simp [AddUniqueValue, usedList, hk, ih]

/-- Used-value membership is preserved by `AddUniqueValue`. -/
theorem mem_usedList_add (used : UsedValues) (k v k2 x : String)
    (hx : x ∈ usedList used k2) : x ∈ usedList (AddUniqueValue used k v) k2 := by
  by_cases h : k2 = k
  · subst h
    rw [usedList_add_self]
    exact List.mem_append_left _ hx
  · rw [usedList_add_ne used k v k2 h]
    exact hx

/-- The value just added is a member of its used list. -/
theorem mem_usedList_add_self (used : UsedValues) (k v : String) :
    v ∈ usedList (AddUniqueValue used k v) k := by
  rw [usedList_add_self]
  exact List.mem_append_right _ (List.mem_singleton.mpr rfl)

/-- Reading back a field just written. -/
theorem lookupVal_set_self (vals : DataValues) (k v : String) :
    lookupVal (setVal vals k v) k = some v := by
  induction vals with
  | nil => simp [setVal, lookupVal]
  | cons p rest ih =>
      obtain ⟨k1, w⟩ := p
      by_cases h : k1 = k
      · subst h
        simp [setVal, lookupVal]
      · simp [setVal, lookupVal, h, ih]

/-- Writing one field does not change another. -/
theorem lookupVal_set_ne (vals : DataValues) (k v k2 : String) (h : k2 ≠ k) :
    lookupVal (setVal vals k v) k2 = lookupVal vals k2 := by
  have h2 : ¬ (k = k2) := fun e => h e.symm
  induction vals with
  | nil => simp [setVal, lookupVal, h2]
  | cons p rest ih =>
      obtain ⟨k1, w⟩ := p
      by_cases hk : k1 = k
      · subst hk
        simp [setVal, lookupVal, h2]
      · simp [setVal, lookupVal, hk, ih]

/-- A field with a defined value is among the object's keys. -/
theorem lookupVal_mem_keys (vals : DataValues) (k s : String)
    (h : lookupVal vals k = some s) : k ∈ vals.map Prod.fst := by
  induction vals with
  | nil => simp [lookupVal] at h
  | cons p rest ih =>
      obtain ⟨k1, w⟩ := p
      by_cases hk : k1 = k
      · subst hk
        simp
      · simp only [lookupVal, if_neg hk] at h
        simpa using Or.inr (ih h)

/-- The used-value state only grows across the field loop, whatever the
outcome. -/
theorem processTokensAux_used_mono (resolve : ResolveFn) (fields : List EntityField)
    (tn : String) :
    ∀ (keys : List String) (orig newVals : DataValues) (used : UsedValues)
      (b : Bool) (v : DataValues) (u : UsedValues),
      ProcessTokensInEntityAux resolve fields tn keys orig newVals used =
        Except.ok (b, v, u) →
      ∀ k2 x, x ∈ usedList used k2 → x ∈ usedList u k2 := by
  intro keys
  induction keys with
  | nil =>
      intro orig newVals used b v u h k2 x hx
      simp only [ProcessTokensInEntityAux] at h
      simp at h
      obtain ⟨_, _, hu⟩ := h
      subst hu
      exact hx
  | cons k rest ih =>
      intro orig newVals used b v u h k2 x hx
      simp only [ProcessTokensInEntityAux] at h
      repeat' split at h
      all_goals first
        | exact ih _ _ _ _ _ _ h k2 x (mem_usedList_add _ _ _ _ _ hx)
        | exact ih _ _ _ _ _ _ h k2 x hx
        | (cases h <;> exact hx)

/-- A field whose current scratch value is token-free keeps that value through
the rest of a successful field loop. -/
theorem processTokensAux_preserve (resolve : ResolveFn) (fields : List EntityField)
    (tn : String) :
    ∀ (keys : List String) (orig newVals : DataValues) (used : UsedValues)
      (v : DataValues) (u : UsedValues) (k d : String),
      lookupVal newVals k = some d → strContains d lBrack = false →
      ProcessTokensInEntityAux resolve fields tn keys orig newVals used =
        Except.ok (true, v, u) →
      lookupVal v k = some d := by
  intro keys
  induction keys with
  | nil =>
      intro orig newVals used v u k d hld hbr h
      simp only [ProcessTokensInEntityAux] at h
      simp at h
      obtain ⟨hv, _⟩ := h
      subst hv
      exact hld
  | cons k1 rest ih =>
      intro orig newVals used v u k d hld hbr h
      by_cases hk : k1 = k
      · subst hk
        simp only [ProcessTokensInEntityAux, hld, hbr] at h
        simp only [Bool.false_eq_true, if_neg (by simp : ¬ (false = true))] at h
        exact ih _ _ _ _ _ _ _ hld hbr h
      · have hk2 : k ≠ k1 := fun e => hk e.symm
        simp only [ProcessTokensInEntityAux] at h
        repeat' split at h
        all_goals first
          | cases h
          | exact ih _ _ _ _ _ _ _ hld hbr h
          | exact ih _ _ _ _ _ _ _
              (by rw [lookupVal_set_ne _ _ _ _ hk2]; exact hld) hbr h

/-- A successful field loop gives every unique field (found by `GetField` and
holding a tokenised value) a resolved value that was not in the used set at
entry and is in the used set at exit. -/
theorem processTokensAux_unique_fresh (resolve : ResolveFn) (fields : List EntityField)
    (tn : String) :
    ∀ (keys : List String) (orig newVals : DataValues) (used : UsedValues)
      (v : DataValues) (u : UsedValues),
      ProcessTokensInEntityAux resolve fields tn keys orig newVals used =
        Except.ok (true, v, u) →
      ∀ (k : String) (f : EntityField) (s : String), k ∈ keys →
        GetFieldMeta fields tn k = Except.ok (some f) → f.isUnique = true →
        lookupVal newVals k = some s → strContains s lBrack = true →
        ∃ d, lookupVal v k = some d ∧ normalizeUV d ∉ usedList used k ∧
          normalizeUV d ∈ usedList u k := by
  intro keys
  induction keys with
  | nil =>
      intro orig newVals used v u h k f s hmem
      exact absurd hmem (List.not_mem_nil k)
  | cons k1 rest ih =>
      intro orig newVals used v u h k f s hmem hgf hu hlv hbr
      by_cases hk : k = k1
      · subst hk
        simp only [ProcessTokensInEntityAux, hlv, hbr, if_true] at h
        by_cases hd : strContains (resolve s newVals) lBrack
        · rw [if_pos hd] at h
          cases h
        · rw [if_neg hd] at h
          rw [hgf] at h
          simp only [hu, if_true] at h
          by_cases hhas : HasUniqueValue used k (normalizeUV (resolve s newVals)) = true
          · rw [if_pos hhas] at h
            cases h
          · rw [if_neg hhas] at h
            refine ⟨resolve s newVals, ?_, ?_, ?_⟩
            · exact processTokensAux_preserve resolve fields tn rest orig _ _ v u k
                (resolve s newVals) (lookupVal_set_self newVals k (resolve s newVals))
                (Bool.not_eq_true _ ▸ hd) h
            · intro hmem2
              exact hhas (by simpa [HasUniqueValue] using hmem2)
            · exact processTokensAux_used_mono resolve fields tn rest orig _ _ _ _ _ h k
                (normalizeUV (resolve s newVals))
                (mem_usedList_add_self used k (normalizeUV (resolve s newVals)))
      · have hk2 : k ≠ k1 := hk
        have hmem2 : k ∈ rest := by
          rcases List.mem_cons.mp hmem with h1 | h1
          · exact absurd h1 hk
          · exact h1
        simp only [ProcessTokensInEntityAux] at h
        repeat' split at h
        all_goals first
          | cases h
          | exact ih _ _ _ _ _ h k f s hmem2 hgf hu hlv hbr
          | (obtain ⟨d, hd1, hd2, hd3⟩ := ih _ _ _ _ _ h k f s hmem2 hgf hu
              (by rw [lookupVal_set_ne _ _ _ _ (fun e => hk2 e)]; exact hlv) hbr;
             exact ⟨d, hd1, fun hmem3 => hd2 (mem_usedList_add _ _ _ _ _ hmem3), hd3⟩)
          | (obtain ⟨d, hd1, hd2, hd3⟩ := ih _ _ _ _ _ h k f s hmem2 hgf hu
              (by rw [lookupVal_set_ne _ _ _ _ (fun e => hk2 e)]; exact hlv) hbr;
             exact ⟨d, hd1, hd2, hd3⟩)

/-- A successful `RetryLoop` run comes from one successful
`ProcessTokensInEntity` attempt on the untouched row, against a used-value
state that extends the entry state. -/
theorem retryLoop_ok_attempt (resolve : ℕ → ResolveFn) (fields : List EntityField)
    (tn tb : String) (n : ℕ) (vals : DataValues) :
    ∀ (fuel : ℕ) (used : UsedValues) (seed : ℕ) (v : DataValues) (u : UsedValues) (s2 : ℕ),
      RetryLoop resolve fields tn tb n vals used seed fuel = Except.ok (v, u, s2) →
      1 ≤ fuel →
      ∃ used1 seed1,
        (∀ k2 x, x ∈ usedList used k2 → x ∈ usedList used1 k2) ∧
        ProcessTokensInEntity (resolve seed1) fields tn vals used1 =
          Except.ok (true, v, u) := by
  intro fuel
  induction fuel with
  | zero => intro used seed v u s2 _ hf; omega
  | succ m ih =>
      intro used seed v u s2 h _
      by_cases hm : m = 0
      · subst hm
        simp [RetryLoop] at h
      · rw [RetryLoop, if_neg hm] at h
        rcases hp : ProcessTokensInEntity (resolve seed) fields tn vals used with _ | ⟨b, v2, u2⟩
        · rw [hp] at h; cases h
        · rw [hp] at h
          cases b
          · have hmono := processTokensAux_used_mono (resolve seed) fields tn
              (vals.map Prod.fst) vals vals used false v2 u2 hp
            obtain ⟨used1, seed1, hsub, hsucc⟩ := ih u2 (seed + 1) v u s2 h (by omega)
            exact ⟨used1, seed1, fun k2 x hx => hsub k2 x (hmono k2 x hx), hsucc⟩
          · simp at h
            obtain ⟨hv, hu2, _⟩ := h
            subst hv
            subst hu2
            exact ⟨used, seed, fun _ _ hx => hx, hp⟩

/-- Invariant of `ProcessAllTokensInTable` for a unique field `k` whose
unresolved expressions are tokenised: the used set only grows, every output
row's value at `k` is fresh for the entry state and recorded in the exit
state, and values at `k` are pairwise distinct modulo case/trim. -/
theorem processAll_unique_props (resolve : ℕ → ResolveFn) (fields : List EntityField)
    (tn tb : String) (n : ℕ) (k : String) (f : EntityField)
    (hgf : GetFieldMeta fields tn k = Except.ok (some f)) (hu : f.isUnique = true) :
    ∀ (rows : List DataValues) (used : UsedValues) (seed : ℕ)
      (rows2 : List DataValues) (u : UsedValues) (s2 : ℕ),
      ProcessAllTokensInTable resolve fields tn tb n rows used seed =
        Except.ok (rows2, u, s2) →
      (∀ row ∈ rows, ∃ s, lookupVal row k = some s ∧ strContains s lBrack = true) →
      (∀ k2 x, x ∈ usedList used k2 → x ∈ usedList u k2) ∧
      (∀ (j : ℕ) (rj : DataValues), rows2[j]? = some rj → ∃ vj, lookupVal rj k = some vj ∧
        normalizeUV vj ∈ usedList u k ∧ normalizeUV vj ∉ usedList used k) ∧
      (∀ (i j : ℕ) (ri rj : DataValues) (vi vj : String), i < j →
        rows2[i]? = some ri → rows2[j]? = some rj →
        lookupVal ri k = some vi → lookupVal rj k = some vj →
        normalizeUV vi ≠ normalizeUV vj) := by
  intro rows
  induction rows with
  | nil =>
      intro used seed rows2 u s2 h htok
      simp only [ProcessAllTokensInTable] at h
      simp at h
      obtain ⟨hr, hu2, _⟩ := h
      subst hr
      subst hu2
      refine ⟨fun _ _ hx => hx, ?_, ?_⟩
      · intro j rj hj
        simp at hj
      · intro i j ri rj vi vj hij hi hj
        simp at hi
  | cons r rest ih =>
      intro used seed rows2 u s2 h htok
      simp only [ProcessAllTokensInTable] at h
      split at h
      · cases h
      · rename_i v0 u0 s0 hR
        split at h
        · cases h
        · rename_i vs u1 s1 hT
          simp at h
          obtain ⟨hrows2, huu, _⟩ := h
          subst hrows2
          subst huu
          obtain ⟨used1, seed1, hsub1, hsucc⟩ :=
            retryLoop_ok_attempt resolve fields tn tb n r 1000 used seed v0 u0 s0 hR
              (by omega)
          obtain ⟨s, hlv, hbr⟩ := htok r (List.mem_cons_self r rest)
          obtain ⟨d0, hlvd, hnotin1, hin0⟩ :=
            processTokensAux_unique_fresh (resolve seed1) fields tn (r.map Prod.fst) r r
              used1 v0 u0 hsucc k f s (lookupVal_mem_keys r k s hlv) hgf hu hlv hbr
          have hmono0 := processTokensAux_used_mono (resolve seed1) fields tn
            (r.map Prod.fst) r r used1 true v0 u0 hsucc
          obtain ⟨ihA, ihB, ihC⟩ := ih u0 s0 vs u1 s1 hT
            (fun row hrow => htok row (List.mem_cons_of_mem r hrow))
          have hnotin : normalizeUV d0 ∉ usedList used k :=
            fun hmem => hnotin1 (hsub1 k _ hmem)
          have hin1 : normalizeUV d0 ∈ usedList u1 k := ihA k _ hin0
          refine ⟨?_, ?_, ?_⟩
          · intro k2 x hx
            exact ihA k2 x (hmono0 k2 x (hsub1 k2 x hx))
          · intro j rj hj
            cases j with
            | zero =>
                simp at hj
                subst hj
                exact ⟨d0, hlvd, hin1, hnotin⟩
            | succ j =>
                simp only [List.getElem?_cons_succ] at hj
                obtain ⟨vj, hvj, hvin, hvnotin⟩ := ihB j rj hj
                exact ⟨vj, hvj, hvin,
                  fun hmem => hvnotin (hmono0 k _ (hsub1 k _ hmem))⟩
          · intro i j ri rj vi vj hij hi hj hlvi hlvj
            cases i with
            | zero =>
                simp at hi
                subst hi
                rw [hlvd] at hlvi
                injection hlvi with hvi
                subst hvi
                cases j with
                | zero => omega
                | succ j =>
                    simp only [List.getElem?_cons_succ] at hj
                    obtain ⟨vj2, hvj2, _, hvnotin0⟩ := ihB j rj hj
                    rw [hvj2] at hlvj
                    injection hlvj with hvj
                    subst hvj
                    exact fun he => hvnotin0 (he ▸ hin0)
            | succ i =>
                cases j with
                | zero => omega
                | succ j =>
                    simp only [List.getElem?_cons_succ] at hi hj
                    exact ihC i j ri rj vi vj (by omega) hi hj hlvi hlvj

/-- C4 amended: for every table and every field flagged unique whose
unresolved generator expression contains a `[` token, no two processed rows
hold the same resolved value for that field under case-insensitive, trimmed
comparison (fields whose expression carries no token bypass the uniqueness
tracking entirely; on a collision the whole row is rejected and retried, never
partially accepted). -/
theorem unique_field_values_pairwise_distinct (resolve : ℕ → ResolveFn)
    (fields : List EntityField) (tn tb : String) (n : ℕ) (k : String) (f : EntityField)
    (rows : List DataValues) (used : UsedValues) (seed : ℕ)
    (rows2 : List DataValues) (u : UsedValues) (s2 : ℕ)
    (hgf : GetFieldMeta fields tn k = Except.ok (some f)) (hu : f.isUnique = true)
    (htok : ∀ row ∈ rows, ∃ s, lookupVal row k = some s ∧ strContains s lBrack = true)
    (hok : ProcessAllTokensInTable resolve fields tn tb n rows used seed =
      Except.ok (rows2, u, s2)) :
    ∀ (i j : ℕ) (ri rj : DataValues) (vi vj : String), i < j →
      rows2[i]? = some ri → rows2[j]? = some rj →
      lookupVal ri k = some vi → lookupVal rj k = some vj →
      normalizeUV vi ≠ normalizeUV vj :=
  (processAll_unique_props resolve fields tn tb n k f hgf hu rows used seed
    rows2 u s2 hok htok).2.2

/-- A resolver producing "A" on the first attempt and "B" afterwards. -/
def resolveAB : ℕ → ResolveFn :=
  fun seed _ _ => if seed = 0 then "A" else "B"

/-- Witness for `unique_field_values_pairwise_distinct`: a two-row table over
a unique tokenised `name` field resolves to "A" and "B", which differ. -/
theorem unique_field_values_pairwise_distinct_witness :
    normalizeUV "A" ≠ normalizeUV "B" :=
  unique_field_values_pairwise_distinct resolveAB [uniqueNameField] "Tag" "Tags" 2 "name"
    uniqueNameField [[("name", some "[g]")], [("name", some "[g]")]] [("name", [])] 0
    [[("name", some "A")], [("name", some "B")]] [("name", ["a", "b"])] 2
    rfl rfl
    (by
      intro row hrow
      simp only [List.mem_cons, List.not_mem_nil, or_false] at hrow
      rcases hrow with rfl | rfl
      · exact ⟨"[g]", rfl, rfl⟩
      · exact ⟨"[g]", rfl, rfl⟩)
    rfl 0 1 [("name", some "A")] [("name", some "B")] "A" "B" (by omega) rfl rfl rfl rfl

/-- The unique `name` field with a token-free constant generator "X". -/
def uniqueConstField : EntityField :=
  ⟨"name", true, some "X"⟩

/-- C4 counterexample: a unique field whose generator expression "X" carries
no `[` token bypasses the uniqueness tracking: `FillTable` makes two identical
rows and table token processing accepts both unchanged, so two rows of the
table hold the same resolved value "X" for the unique field — the claim as
stated (quantifying over every unique field) fails. -/
theorem unique_field_no_token_duplicate :
    ProcessAllTokensInTable (fun _ => fun v _ => v) [uniqueConstField] "Tag" "Tags" 2
        (List.replicate 2 (SetupEntityGenerators [uniqueConstField])) [("name", [])] 0 =
      Except.ok ([[("name", some "X")], [("name", some "X")]], [("name", [])], 2) ∧
    FillTable [] "Tags" [uniqueConstField] (RowCountSpec.numCount 2) =
      Except.ok (List.replicate 2 [("name", some "X")]) := by
  exact ⟨rfl, rfl⟩

/-!
## Inheritance and field declaration (C8)

`CreateEntityDefinition` (lines 527–576) first copies the fields of every
inherited base with `InheritBaseFields` (lines 586–599) — which throws a
duplicate-field error when the target already has a field of the same name —
and only then adds the schema-declared fields with `AddField`
(CrudioEntityType lines 130–144), which does **not** throw on an existing
field: it overwrites the caption and options ("allow a type which inherits
fields from a base, to override the values of the inherited field").
-/

/-- The relevant slice of `ICrudioFieldOptions` built by
`CreateEntityDefinition`. -/
structure FieldOptionsModel where
  isKey : Bool := false
  isUnique : Bool := false
  isRequired : Bool := false
  generator : Option String := none
  deriving Repr, DecidableEq

/-- A `CrudioField`: name, type, optional caption and options (`none` models
JS `undefined`). -/
structure FieldDef where
  fieldName : String
  fieldType : String
  caption : Option String := none
  fieldOptions : Option FieldOptionsModel := none
  deriving Repr, DecidableEq

/-- One schema-declared field processed by the `AddField` loop of
`CreateEntityDefinition` (lines 545–559). -/
structure DeclaredField where
  name : String
  ftype : String
  caption : Option String := none
  options : Option FieldOptionsModel := none
  deriving Repr, DecidableEq

/-- `GetField` (lines 74–86) on a field list: `undefined`, the single match,
or the multiple-match error. -/
def GetFieldDef (fields : List FieldDef) (name : String) : Except String (Option FieldDef) :=
  match fields.filter (fun f => decide (f.fieldName = name)) with
  | [] => Except.ok none
  | [f] => Except.ok (some f)
  | _ => Except.error ("\x27" ++ name ++ "\x27 matches multiple fields on entity")

/-- `AddField` (lines 130–144): create the field when it does not exist;
otherwise override the existing (inherited) field's caption and options when
they are provided — re-declaration is permitted. -/
def AddField (fields : List FieldDef) (name ftype : String) (caption : Option String)
    (options : Option FieldOptionsModel) : Except String (List FieldDef) :=
  match GetFieldDef fields name with
  | Except.error e => Except.error e
  | Except.ok none => Except.ok (fields ++ [⟨name, ftype, caption, options⟩])
  | Except.ok (some _) =>
      Except.ok (fields.map (fun g =>
        if g.fieldName = name then
          { g with
            caption := match caption with | some c => some c | none => g.caption,
            fieldOptions := match options with | some o => some o | none => g.fieldOptions }
        else g))

/-- The duplicate-field error of `InheritBaseFields` (line 592), with the
source's spelling. -/
def inheritDupError (childName baseName fieldName : String) : String :=
  "InheritFields - child:\x27" ++ childName ++ "\x27 base:\x27" ++ baseName ++
    "\x27 : can not have fields in child which are already specifified in base. field:\x27" ++
    fieldName ++ "\x27"

/-- `InheritBaseFields` (lines 586–599): copy every base field (except one
named `abstract`, case-insensitively) onto the target, throwing when the
target already holds a field of that name. -/
def InheritBaseFields (childName baseName : String) :
    List FieldDef → List FieldDef → Except String (List FieldDef)
  | [], target => Except.ok target
  | f :: rest, target =>
      if jsToLower f.fieldName ≠ "abstract" then
        match GetFieldDef target f.fieldName with
        | Except.error e => Except.error e
        | Except.ok (some _) => Except.error (inheritDupError childName baseName f.fieldName)
        | Except.ok none =>
            InheritBaseFields childName baseName rest
              (target ++ [⟨f.fieldName, f.fieldType, f.caption, f.fieldOptions⟩])
      else InheritBaseFields childName baseName rest target

/-- The `inherits` loop of `CreateEntityDefinition` (lines 533–541): inherit
from each named base in order. -/
def InheritAllBases (childName : String) :
    List (String × List FieldDef) → List FieldDef → Except String (List FieldDef)
  | [], target => Except.ok target
  | b :: rest, target =>
      match InheritBaseFields childName b.1 b.2 target with
      | Except.error e => Except.error e
      | Except.ok t2 => InheritAllBases childName rest t2

/-- The declared-field loop of `CreateEntityDefinition` (lines 543–559). -/
def AddDeclaredFields : List DeclaredField → List FieldDef → Except String (List FieldDef)
  | [], fields => Except.ok fields
  | d :: rest, fields =>
      match AddField fields d.name d.ftype d.caption d.options with
      | Except.error e => Except.error e
      | Except.ok f2 => AddDeclaredFields rest f2

/-- The field-assembly of `CreateEntityDefinition` (lines 527–576): a fresh
entity inherits all base fields first, then adds its own declared fields. -/
def CreateEntityFields (childName : String) (bases : List (String × List FieldDef))
    (declared : List DeclaredField) : Except String (List FieldDef) :=
  match InheritAllBases childName bases [] with
  | Except.error e => Except.error e
  | Except.ok fs => AddDeclaredFields declared fs

/-- Shared options constants for the concrete C8 scenarios. -/
def plainOpts : FieldOptionsModel :=
  ⟨false, false, false, none⟩

/-- Options carrying a `unique` flag, to make the child's re-declaration
observable. -/
def uniqueOpts : FieldOptionsModel :=
  ⟨false, true, false, none⟩

/-- A base-type `name` field. -/
def baseNameField : FieldDef :=
  ⟨"name", "string", some "name", some plainOpts⟩

/-- C8 counterexample: a child declaring a field whose name collides with an
inherited base field does **not** fail — `AddField` finds the inherited field
and overrides its caption/options, so the declaration succeeds. -/
theorem child_redeclaration_is_permitted :
    CreateEntityFields "User" [("Person", [baseNameField])]
        [⟨"name", "string", some "name", some uniqueOpts⟩] =
      Except.ok [⟨"name", "string", some "name", some uniqueOpts⟩] := by
  rfl

/-- C8 amended: a duplicate-field error is raised only when a field collides
between two inherited bases (diamond inheritance); a child-declared field
colliding with an inherited field is permitted and overrides the inherited
caption and options. -/
theorem inherited_field_collision_rules (f : FieldDef) (t2 c2 : String)
    (o2 : FieldOptionsModel) (cn b1 b2 : String)
    (habs : jsToLower f.fieldName ≠ "abstract") :
    CreateEntityFields cn [(b1, [f])] [⟨f.fieldName, t2, some c2, some o2⟩] =
      Except.ok [{ f with caption := some c2, fieldOptions := some o2 }] ∧
    CreateEntityFields cn [(b1, [f]), (b2, [f])] [] =
      Except.error (inheritDupError cn b2 f.fieldName) := by
  constructor
  · simp [CreateEntityFields, InheritAllBases, InheritBaseFields, habs,
      AddDeclaredFields, AddField, GetFieldDef]
  · simp [CreateEntityFields, InheritAllBases, InheritBaseFields, habs, GetFieldDef]

/-- Witness for `inherited_field_collision_rules` on the `name` field. -/
theorem inherited_field_collision_rules_witness :
    CreateEntityFields "User" [("Person", [baseNameField])]
        [⟨"name", "string", some "name", some uniqueOpts⟩] =
      Except.ok [{ baseNameField with caption := some "name", fieldOptions := some uniqueOpts }] ∧
    CreateEntityFields "User" [("Person", [baseNameField]), ("Contact", [baseNameField])] [] =
      Except.error (inheritDupError "User" "Contact" "name") :=
  inherited_field_collision_rules baseNameField "string" "name" uniqueOpts
    "User" "Person" "Contact" (by decide)

/-!
## Assignment processing (C9)

`ProcessAssignment` (lines 1728–1746) splits the instruction on `=`, resolves
the dotted/indexed path with `GetObjectFromPath` (lines 1756–1789) and
overwrites the addressed field with the literal. In `GetObjectFromPath` the
loop variable `obj` is reassigned from `GetTable(p).DataRows` on every
iteration, so the last iterated segment determines the target; a segment with
a `(index)` suffix addresses one row's `DataValues`. The in-memory table list
is `TablesState`; writing through the resolved reference is `setTableRow`.
-/

/-- The character `(`. -/
def lParen : Char := Char.ofNat 40

/-- The character `)`. -/
def rParen : Char := Char.ofNat 41

/-- The character `=`. -/
def eqChar : Char := Char.ofNat 61

/-- The character `.`. -/
def dotChar : Char := Char.ofNat 46

/-- The in-memory tables: name and rows (each row a `DataValues`). -/
abbrev TablesState := List (String × List DataValues)

/-- First table with the given name. -/
def lookupTable : TablesState → String → Option (List DataValues)
  | [], _ => none
  | (n, rows) :: rest, name => if n = name then some rows else lookupTable rest name

/-- `GetTable` (lines 920–928): the first matching table or an error. -/
def GetTable (tables : TablesState) (name : String) : Except String (List DataValues) :=
  match lookupTable tables name with
  | some rows => Except.ok rows
  | none => Except.error ("Table \x27" ++ name ++ "\x27 not found")

/-- The `(index)` parsing of one path segment in `GetObjectFromPath`
(lines 1768–1780): returns the remaining segment name and the parsed index
(`some (-1)` when no parenthesis is present, `none` for `NaN` — note the
source's `index === NaN` check never fires, and both `NaN` and negative
indices leave `obj` pointing at the rows array). -/
def parseIndexPart (p : String) : String × Option ℤ :=
  let start := jsIndexOfChar p lParen + 1
  if start > 0 then
    let endi := jsIndexOfChar p rParen
    let val := jsSubstring p start endi
    (jsSubstring p 0 (start - 1), jsParseInt val)
  else (p, some (-1))

/-- What the loop variable `obj` of `GetObjectFromPath` references: a table's
`DataRows` array, or the `DataValues` of row `i` of a table. -/
inductive PathObj where
  | rowsRef (tname : String)
  | rowRef (tname : String) (i : ℕ)
  deriving Repr, DecidableEq

/-- The JS `TypeError` raised by `obj[index].DataValues` when row `index`
does not exist. -/
def undefinedRowError (tname : String) : String :=
  "TypeError: cannot read DataValues of undefined row in " ++ tname

/-- The `for` loop of `GetObjectFromPath` (lines 1765–1786) over all path
segments but the last: each iteration re-resolves `obj` from the segment's
table (so only the final segment matters for the result), failing when the
table is missing or an addressed row does not exist. -/
def GetObjectFromPathLoop (tables : TablesState) :
    List String → Option PathObj → Except String (Option PathObj)
  | [], obj => Except.ok obj
  | p :: rest, _obj =>
      let pr := parseIndexPart p
      match GetTable tables pr.1 with
      | Except.error e => Except.error e
      | Except.ok rows =>
          match pr.2 with
          | some i =>
              if 0 ≤ i then
                if i.toNat < rows.length then
                  GetObjectFromPathLoop tables rest (some (PathObj.rowRef pr.1 i.toNat))
                else Except.error (undefinedRowError pr.1)
              else GetObjectFromPathLoop tables rest (some (PathObj.rowsRef pr.1))
          | none => GetObjectFromPathLoop tables rest (some (PathObj.rowsRef pr.1))

/-- `GetObjectFromPath` (lines 1756–1789): split the path on `.`, walk every
segment but the last, and return the reached object together with the final
segment as the field name. -/
def GetObjectFromPath (tables : TablesState) (path : String) :
    Except String (Option PathObj × String) :=
  let parts := jsSplit path dotChar
  if parts.length < 1 then
    Except.error ("Error: invalid assignment syntax in \x27" ++ path ++ "\x27")
  else
    match GetObjectFromPathLoop tables parts.dropLast none with
    | Except.error e => Except.error e
    | Except.ok obj => Except.ok (obj, parts.getLastD "")

/-- Overwrite field `field` of row `i`. -/
def updateRowAt : List DataValues → ℕ → String → String → List DataValues
  | [], _, _, _ => []
  | r :: rest, 0, field, v => setVal r field v :: rest
  | r :: rest, i + 1, field, v => r :: updateRowAt rest i field v

/-- Write through a row reference: update row `i` of the first table named
`tname` (table names are unique in the model — one table per entity type). -/
def setTableRow : TablesState → String → ℕ → String → String → TablesState
  | [], _, _, _, _ => []
  | (n, rows) :: rest, tname, i, field, v =>
      if n = tname then (n, updateRowAt rows i field v) :: rest
      else (n, rows) :: setTableRow rest tname i field v

/-- Read a single row field out of the table state. -/
def getRowField (tables : TablesState) (tname : String) (i : ℕ) (field : String) :
    Option String :=
  match lookupTable tables tname with
  | some rows =>
      match rows[i]? with
      | some r => lookupVal r field
      | none => none
  | none => none

/-- `ProcessAssignment` (lines 1728–1746): split on `=`, resolve the path,
check the target object and target field, and assign
`target.entityValues[target.field] = parts[1]` — for a row reference this
overwrites the row's field with the literal; for a rows-array reference the
JS write attaches a property to the array object and no row changes. -/
def ProcessAssignment (tables : TablesState) (instruction : String) :
    Except String TablesState :=
  let parts := jsSplit instruction eqChar
  if parts.length < 2 then
    Except.error ("Error: invalid assignment syntax in \x27" ++ instruction ++ "\x27")
  else
    match GetObjectFromPath tables (parts.getD 0 "") with
    | Except.error e => Except.error e
    | Except.ok (obj, field) =>
        match obj with
        | none => Except.error
            ("Error: can not retrieve the target object specified in \x27" ++
              instruction ++ "\x27")
        | some po =>
            if field = "" then
              Except.error
                ("Error: can not retrieve the target field specified in \x27" ++
                  instruction ++ "\x27")
            else
              match po with
              | PathObj.rowRef tname i =>
                  Except.ok (setTableRow tables tname i field (parts.getD 1 ""))
              | PathObj.rowsRef _tname => Except.ok tables

/-- Writing a row leaves the written table's name in place and updates its
rows. -/
theorem lookupTable_setTableRow_self (tables : TablesState) (tn : String) (i : ℕ)
    (f v : String) :
    lookupTable (setTableRow tables tn i f v) tn =
      (lookupTable tables tn).map (fun rows => updateRowAt rows i f v) := by
  induction tables with
  | nil => simp [setTableRow, lookupTable]
  | cons t rest ih =>
      obtain ⟨n, rows⟩ := t
      by_cases h : n = tn
      · subst h
        simp [setTableRow, lookupTable]
      · simp [setTableRow, lookupTable, h, ih]

/-- Writing a row leaves other tables untouched. -/
theorem lookupTable_setTableRow_ne (tables : TablesState) (tn : String) (i : ℕ)
    (f v name : String) (h : name ≠ tn) :
    lookupTable (setTableRow tables tn i f v) name = lookupTable tables name := by
  induction tables with
  | nil => simp [setTableRow, lookupTable]
  | cons t rest ih =>
      obtain ⟨n, rows⟩ := t
      by_cases hn : n = tn
      · subst hn
        have : ¬ (n = name) := fun e => h e.symm
        simp [setTableRow, lookupTable, this]
      · by_cases hname : n = name
        · subst hname
          simp [setTableRow, lookupTable, hn]
        · simp [setTableRow, lookupTable, hn, hname, ih]

/-- `updateRowAt` preserves the number of rows. -/
theorem updateRowAt_length (rows : List DataValues) (i : ℕ) (f v : String) :
    (updateRowAt rows i f v).length = rows.length := by
  induction rows generalizing i with
  | nil => rfl
  | cons r rest ih =>
      cases i with
      | zero => simp [updateRowAt]
      | succ i => simp [updateRowAt, ih]

/-- The updated row holds the written field. -/
theorem updateRowAt_getElem (rows : List DataValues) (i : ℕ) (f v : String)
    (r : DataValues) (h : rows[i]? = some r) :
    (updateRowAt rows i f v)[i]? = some (setVal r f v) := by
  induction rows generalizing i with
  | nil => simp at h
  | cons r0 rest ih =>
      cases i with
      | zero =>
          simp at h
          subst h
          simp [updateRowAt]
      | succ i =>
          simp only [List.getElem?_cons_succ] at h
          simpa [updateRowAt] using ih i h

/-- Writing the same field value twice is one write. -/
theorem setVal_idem (r : DataValues) (f v : String) :
    setVal (setVal r f v) f v = setVal r f v := by
  induction r with
  | nil => simp [setVal]
  | cons p rest ih =>
      obtain ⟨k1, w⟩ := p
      by_cases h : k1 = f
      · subst h
        simp [setVal]
      · simp [setVal, h, ih]

/-- Row update is idempotent. -/
theorem updateRowAt_idem (rows : List DataValues) (i : ℕ) (f v : String) :
    updateRowAt (updateRowAt rows i f v) i f v = updateRowAt rows i f v := by
  induction rows generalizing i with
  | nil => rfl
  | cons r rest ih =>
      cases i with
      | zero => simp [updateRowAt, setVal_idem]
      | succ i => simp [updateRowAt, ih]

/-- Table-state update is idempotent. -/
theorem setTableRow_idem (tables : TablesState) (tn : String) (i : ℕ) (f v : String) :
    setTableRow (setTableRow tables tn i f v) tn i f v = setTableRow tables tn i f v := by
  induction tables with
  | nil => rfl
  | cons t rest ih =>
      obtain ⟨n, rows⟩ := t
      by_cases h : n = tn
      · subst h
        simp [setTableRow, updateRowAt_idem]
      · simp [setTableRow, h, ih]

/-- A row write changes no table's name or row count. -/
theorem lookupTable_length_setTableRow (tables : TablesState) (tn : String) (i : ℕ)
    (f v : String) :
    ∀ name, Option.map List.length (lookupTable (setTableRow tables tn i f v) name) =
      Option.map List.length (lookupTable tables name) := by
  intro name
  by_cases h : name = tn
  · subst h
    rw [lookupTable_setTableRow_self]
    cases lookupTable tables name <;> simp [updateRowAt_length]
  · rw [lookupTable_setTableRow_ne tables tn i f v name h]

/-- The path loop only inspects table existence and row counts, so two table
states agreeing on those resolve every path identically. -/
theorem GetObjectFromPathLoop_congr (tables tables2 : TablesState)
    (hsame : ∀ name, Option.map List.length (lookupTable tables2 name) =
      Option.map List.length (lookupTable tables name)) :
    ∀ (parts : List String) (obj : Option PathObj),
      GetObjectFromPathLoop tables2 parts obj = GetObjectFromPathLoop tables parts obj := by
  intro parts
  induction parts with
  | nil => intro obj; rfl
  | cons p rest ih =>
      intro obj
      have h := hsame (parseIndexPart p).1
      simp only [GetObjectFromPathLoop, GetTable]
      cases h1 : lookupTable tables (parseIndexPart p).1 with
      | none =>
          cases h2 : lookupTable tables2 (parseIndexPart p).1 with
          | none => simp [h1, h2]
          | some rows2 => rw [h1, h2] at h; simp at h
      | some rows =>
          cases h2 : lookupTable tables2 (parseIndexPart p).1 with
          | none => rw [h1, h2] at h; simp at h
          | some rows2 =>
              rw [h1, h2] at h
              have hlen : rows2.length = rows.length := by simpa using h
              simp only [h1, h2]
              cases hidx : (parseIndexPart p).2 with
              | none => simp only [hidx]; exact ih _
              | some i =>
                  simp only [hidx]
                  by_cases hge : 0 ≤ i
                  · rw [if_pos hge, if_pos hge]
                    by_cases hlt : i.toNat < rows.length
                    · rw [if_pos hlt, if_pos (by omega)]
                      exact ih _
                    · rw [if_neg hlt, if_neg (by omega)]
                  · rw [if_neg hge, if_neg hge]
                    exact ih _

/-- When the path loop ends on a row reference, that row exists. -/
theorem GetObjectFromPathLoop_rowRef_valid (tables : TablesState) :
    ∀ (parts : List String) (obj : Option PathObj) (tname : String) (i : ℕ),
      GetObjectFromPathLoop tables parts obj = Except.ok (some (PathObj.rowRef tname i)) →
      obj = some (PathObj.rowRef tname i) ∨
        ∃ rows, lookupTable tables tname = some rows ∧ i < rows.length := by
  intro parts
  induction parts with
  | nil =>
      intro obj tname i h
      simp only [GetObjectFromPathLoop] at h
      simp at h
      exact Or.inl h
  | cons p rest ih =>
      intro obj tname i h
      simp only [GetObjectFromPathLoop, GetTable] at h
      cases hLT : lookupTable tables (parseIndexPart p).1 with
      | none => simp only [hLT] at h; cases h
      | some rows =>
          simp only [hLT] at h
          cases hidx : (parseIndexPart p).2 with
          | none =>
              simp only [hidx] at h
              rcases ih _ _ _ h with hl | hr
              · simp at hl
              · exact Or.inr hr
          | some i0 =>
              simp only [hidx] at h
              by_cases hge : 0 ≤ i0
              · rw [if_pos hge] at h
                by_cases hlt : i0.toNat < rows.length
                · rw [if_pos hlt] at h
                  rcases ih _ _ _ h with hl | hr
                  · simp at hl
                    obtain ⟨hn, hi⟩ := hl
                    subst hn
                    subst hi
                    exact Or.inr ⟨rows, hLT, hlt⟩
                  · exact Or.inr hr
                · rw [if_neg hlt] at h
                  cases h
              · rw [if_neg hge] at h
                rcases ih _ _ _ h with hl | hr
                · simp at hl
                · exact Or.inr hr

/-- A path that resolves to a row reference addresses an existing row. -/
theorem GetObjectFromPath_rowRef_valid (tables : TablesState) (path : String)
    (tname : String) (i : ℕ) (field : String)
    (h : GetObjectFromPath tables path = Except.ok (some (PathObj.rowRef tname i), field)) :
    ∃ rows, lookupTable tables tname = some rows ∧ i < rows.length := by
  simp only [GetObjectFromPath] at h
  split at h
  · cases h
  · cases hloop : GetObjectFromPathLoop tables (jsSplit path dotChar).dropLast none with
    | error e => rw [hloop] at h; cases h
    | ok obj =>
        rw [hloop] at h
        simp at h
        obtain ⟨hobj, _⟩ := h
        subst hobj
        rcases GetObjectFromPathLoop_rowRef_valid tables _ _ _ _ hloop with hl | hr
        · cases hl
        · exact hr

/-- Path resolution is insensitive to row-field writes. -/
theorem GetObjectFromPath_congr (tables tables2 : TablesState) (path : String)
    (hsame : ∀ name, Option.map List.length (lookupTable tables2 name) =
      Option.map List.length (lookupTable tables name)) :
    GetObjectFromPath tables2 path = GetObjectFromPath tables path := by
  simp only [GetObjectFromPath]
  rw [GetObjectFromPathLoop_congr tables tables2 hsame]

/-- Reading back a written row field. -/
theorem getRowField_setTableRow (tables : TablesState) (tn : String) (i : ℕ)
    (f v : String) (rows : List DataValues)
    (hLT : lookupTable tables tn = some rows) (hi : i < rows.length) :
    getRowField (setTableRow tables tn i f v) tn i f = some v := by
  have h1 := lookupTable_setTableRow_self tables tn i f v
  rw [hLT] at h1
  simp only [getRowField, h1, Option.map]
  have hr : rows[i]? = some rows[i] := List.getElem?_eq_getElem hi
  rw [updateRowAt_getElem rows i f v rows[i] hr]
  exact lookupVal_set_self _ f v

/-- C9: assignment application is idempotent — a successful
`ProcessAssignment` applied again to its own output returns that output
unchanged — and when the instruction's path resolves to an existing row field
the final value of that field is the instruction's literal, overwriting
whatever was generated there. -/
theorem assignment_idempotent_overwrite (tables : TablesState) (instr : String)
    (t2 : TablesState) (h : ProcessAssignment tables instr = Except.ok t2) :
    ProcessAssignment t2 instr = Except.ok t2 ∧
    (∀ (tname : String) (i : ℕ) (field : String),
      GetObjectFromPath tables ((jsSplit instr eqChar).getD 0 "") =
        Except.ok (some (PathObj.rowRef tname i), field) →
      getRowField t2 tname i field = some ((jsSplit instr eqChar).getD 1 "")) := by
  have h0 := h
  simp only [ProcessAssignment] at h
  split at h
  · cases h
  · rename_i hlen
    cases hGOP : GetObjectFromPath tables ((jsSplit instr eqChar).getD 0 "") with
    | error e => rw [hGOP] at h; cases h
    | ok pr =>
        obtain ⟨obj, field⟩ := pr
        rw [hGOP] at h
        cases obj with
        | none => simp at h
        | some po =>
            by_cases hfield : field = ""
            · simp [hfield] at h
            · simp only [if_neg hfield] at h
              cases po with
              | rowsRef tname =>
                  have heq : Except.ok tables = Except.ok t2 := h
                  injection heq with heq2
                  subst heq2
                  refine ⟨h0, ?_⟩
                  intro tn2 i2 f2 hg2
                  simp at hg2
              | rowRef tname i =>
                  have heq : Except.ok (setTableRow tables tname i field
                      ((jsSplit instr eqChar).getD 1 "")) = Except.ok t2 := h
                  injection heq with heq2
                  subst heq2
                  have hsame := lookupTable_length_setTableRow tables tname i field
                    ((jsSplit instr eqChar).getD 1 "")
                  constructor
                  · simp only [ProcessAssignment]
                    rw [if_neg hlen]
                    rw [GetObjectFromPath_congr tables _ _ hsame, hGOP]
                    simp only [if_neg hfield]
                    rw [setTableRow_idem]
                  · intro tn2 i2 f2 hg2
                    simp at hg2
                    rcases hg2 with ⟨⟨rfl, rfl⟩, rfl⟩
                    obtain ⟨rows, hLT, hlt⟩ :=
                      GetObjectFromPath_rowRef_valid tables _ _ _ _ hGOP
                    exact getRowField_setTableRow tables tname i field _ rows hLT hlt

/-- Witness for `assignment_idempotent_overwrite`: the instruction
`Organisations(0).name=Acme` applied to a one-row table; re-applying it to
the result is a no-op and the field holds the literal. -/
theorem assignment_idempotent_overwrite_witness :
    ProcessAssignment [("Organisations", [[("name", some "Acme")]])]
        "Organisations(0).name=Acme" =
      Except.ok [("Organisations", [[("name", some "Acme")]])] ∧
    getRowField [("Organisations", [[("name", some "Acme")]])] "Organisations" 0 "name" =
      some "Acme" :=
  ⟨(assignment_idempotent_overwrite
      [("Organisations", [[("name", some "[organisation_name]")]])]
      "Organisations(0).name=Acme" [("Organisations", [[("name", some "Acme")]])] rfl).1,
   (assignment_idempotent_overwrite
      [("Organisations", [[("name", some "[organisation_name]")]])]
      "Organisations(0).name=Acme" [("Organisations", [[("name", some "Acme")]])] rfl).2
      "Organisations" 0 "name" rfl⟩

end Crudio
